import Mathlib

/-!
A verification development for the breadcrumb hierarchy engine of
`src/app/static/js/sidebar.js` (the `breadcrumb.js` section).

The JavaScript is shallowly embedded: pure string manipulation is
translated to Lean functions over `String`/`List Char`, the DOM and
`localStorage` inputs read by the engine are gathered into explicit
state records, and the global `breadcrumbs` array is passed as an
explicit argument.  JS string primitives (`includes`, `startsWith`,
`replace` with a string pattern, `toLowerCase`, `trim`) are modelled
by hand so that their exact first-occurrence / substring semantics
are preserved.
-/

set_option maxRecDepth 100000

namespace Breadcrumb

/-- JS `pat.isPrefixOf l` over char lists: `isPrefL p l` is true iff `p`
is an initial segment of `l`. -/
def isPrefL : List Char → List Char → Bool
  | [], _ => true
  | _ :: _, [] => false
  | a :: as, b :: bs => a == b && isPrefL as bs

/-- `occursIn p l` is true iff `p` occurs as a contiguous sub-list of `l`.
This is the semantics of JS `l.includes(p)` for strings. -/
def occursIn (p : List Char) : List Char → Bool
  | [] => isPrefL p []
  | c :: ls => isPrefL p (c :: ls) || occursIn p ls

/-- JS `s.includes(pat)`. -/
def jsIncludes (s pat : String) : Bool :=
  occursIn pat.data s.data

/-- JS `s.startsWith(pat)`. -/
def jsStartsWith (s pat : String) : Bool :=
  isPrefL pat.data s.data

/-- JS `s.toLowerCase()` (ASCII, which is all the source compares). -/
def jsToLower (s : String) : String :=
  String.mk (s.data.map Char.toLower)

/-- JS `s.trim()`: strip leading and trailing whitespace. -/
def jsTrim (s : String) : String :=
  String.mk (((s.data.dropWhile Char.isWhitespace).reverse.dropWhile
    Char.isWhitespace).reverse)

/-- Replace the first occurrence of `p` (non-empty) in the list by `r`,
as JS `String.prototype.replace` does with a string pattern. -/
def replFirstAux (p r : List Char) : List Char → List Char
  | [] => []
  | c :: ls =>
    if isPrefL p (c :: ls) then r ++ (c :: ls).drop p.length
    else c :: replFirstAux p r ls

/-- JS `s.replace(pat, rep)` with a string pattern: replaces only the
first occurrence; an empty pattern matches at position 0. -/
def replaceFirst (s pat rep : String) : String :=
  if pat.data = [] then rep ++ s
  else String.mk (replFirstAux pat.data rep.data s.data)

/-- `normalizeUrl` from the source: strip the first occurrence of
`window.location.origin` from the url, then ensure a leading slash. -/
def normalizeUrl (origin url : String) : String :=
  let path := replaceFirst url origin ""
  if jsStartsWith path "/" then path else "/" ++ path

/-- A breadcrumb entry `{ label, url }`. -/
structure Entry where
  label : String
  url : String
deriving DecidableEq, Repr

/-- A `PAGE_HIERARCHY` value `{ label, level, parent }`. -/
structure HierInfo where
  label : String
  level : Nat
  parent : Option String := none
deriving DecidableEq, Repr

/-- An `<a data-label=... href=...>` element as seen by the engine. -/
structure DomLink where
  dataLabel : String
  href : String
deriving DecidableEq, Repr

/-- The ambient state read (but not written) by the engine: the page
origin, the `PAGE_HIERARCHY` object (an insertion-ordered map), the
text of the `#isAdmin` element when present, and the first link
matching each of the two dashboard `querySelector` calls. -/
structure Env where
  origin : String
  hierarchy : List (String × HierInfo)
  isAdminText : Option String
  adminLink : Option DomLink
  employeeLink : Option DomLink

/-- `isDashboardPage(url, label)` from the source: url pattern match,
label pattern match, or `level === 0` in the hierarchy map. -/
def isDashboardPage (env : Env) (url : String) (label : String) : Bool :=
  let hasUrlPattern :=
    jsIncludes url "dashboard" || jsIncludes url "admin_dashboard" ||
      jsIncludes url "employee_dashboard"
  let hasLabelPattern := jsIncludes (jsToLower label) "dashboard"
  let isRootLevel :=
    match env.hierarchy.find? (fun kv => kv.1 == url) with
    | some kv => kv.2.level == 0
    | none => false
  hasUrlPattern || hasLabelPattern || isRootLevel

/-- The `isAdmin` test in `getDashboardPage`:
`document.getElementById("isAdmin")?.textContent?.trim().toLowerCase() === "admin"`. -/
def isAdminRole (env : Env) : Bool :=
  match env.isAdminText with
  | some s => jsToLower (jsTrim s) == "admin"
  | none => false

/-- `getDashboardPage()` from the source, with the global `breadcrumbs`
array passed explicitly as `trail`. -/
def getDashboardPage (env : Env) (trail : List Entry) : Entry :=
  match trail.find? (fun item => isDashboardPage env item.url item.label) with
  | some dashboardBreadcrumb => dashboardBreadcrumb
  | none =>
    match env.hierarchy.find?
        (fun kv => kv.2.level == 0 && jsIncludes (jsToLower kv.2.label) "dashboard") with
    | some kv => { label := kv.2.label, url := kv.1 }
    | none =>
      let isAdmin := isAdminRole env
      match (if isAdmin then env.adminLink else env.employeeLink) with
      | some link =>
        { label := link.dataLabel, url := normalizeUrl env.origin link.href }
      | none =>
        if isAdmin then { label := "Admin Dashboard", url := "/admin_dashboard/" }
        else { label := "Employee Dashboard", url := "/employee_dashboard/" }

/-- `buildBreadcrumbPath(currentLabel, currentUrl)` from the source, with
the global `breadcrumbs` array passed explicitly as `trail`. -/
def buildBreadcrumbPath (env : Env) (trail : List Entry)
    (currentLabel currentUrl : String) : List Entry :=
  if isDashboardPage env currentUrl currentLabel then
    [{ label := currentLabel, url := currentUrl }]
  else
    let dashboard := getDashboardPage env trail
    (if normalizeUrl env.origin dashboard.url != normalizeUrl env.origin currentUrl then
      [dashboard]
    else []) ++ [{ label := currentLabel, url := currentUrl }]

/-- `updateBreadcrumb(label, url)` from the source: rebuild the trail
(then save and render, modelled separately). Returns the new value of
the global `breadcrumbs` array. -/
def updateBreadcrumb (env : Env) (trail : List Entry)
    (label url : String) : List Entry :=
  buildBreadcrumbPath env trail label url

/-- An `<a data-template-url data-label>` element of the url resolver. -/
structure ResolverLink where
  href : String
  dataLabel : String
deriving DecidableEq, Repr

/-- JS object update `PAGE_HIERARCHY[k] = v`: overwrite in place when the
key exists, else append (string keys keep first-insertion order). -/
def upsert (m : List (String × HierInfo)) (k : String) (v : HierInfo) :
    List (String × HierInfo) :=
  if m.any (fun kv => kv.1 == k) then
    m.map (fun kv => if kv.1 == k then (k, v) else kv)
  else m ++ [(k, v)]

/-- One resolver link's contribution in `initializePageHierarchy`. -/
def classifyLink (origin : String) (l : ResolverLink) : String × HierInfo :=
  let url := normalizeUrl origin l.href
  let isDashboard :=
    jsIncludes (jsToLower l.dataLabel) "dashboard" ||
      jsIncludes url "admin_dashboard" || jsIncludes url "employee_dashboard"
  (url, { label := l.dataLabel, level := if isDashboard then 0 else 1, parent := none })

/-- `initializePageHierarchy()` from the source: scan the resolver links,
then add a fallback entry for the current path when absent. -/
def initializePageHierarchy (origin : String) (links : List ResolverLink)
    (locationPathname pageTitle : String) : List (String × HierInfo) :=
  let afterLinks := links.foldl
    (fun m l =>
      let kv := classifyLink origin l
      upsert m kv.1 kv.2) []
  let currentPath := normalizeUrl origin locationPathname
  if afterLinks.any (fun kv => kv.1 == currentPath) then afterLinks
  else
    let isDashboard :=
      jsIncludes (jsToLower pageTitle) "dashboard" ||
        jsIncludes currentPath "dashboard"
    afterLinks ++
      [(currentPath,
        { label := pageTitle, level := if isDashboard then 0 else 1, parent := none })]

/-! ## Persistence: `localStorage` slot, JSON values, load and save -/

/-- A JSON value, the result of `JSON.parse` on the stored string. -/
inductive JVal where
  | null : JVal
  | bool : Bool → JVal
  | num : Int → JVal
  | str : String → JVal
  | arr : List JVal → JVal
  | obj : List (String × JVal) → JVal
deriving Repr

/-- The `app_breadcrumbs` slot of `localStorage`:
`absent` covers `getItem` returning `null` (or the falsy empty string),
`malformed` a truthy string on which `JSON.parse` throws, and
`value j` a truthy string parsing to the JSON value `j`. -/
inductive Stored where
  | absent : Stored
  | malformed : Stored
  | value : JVal → Stored

/-- JS truthiness of a JSON value. -/
def jTruthy : JVal → Bool
  | .null => false
  | .bool b => b
  | .num n => n != 0
  | .str s => s != ""
  | .arr _ => true
  | .obj _ => true

/-- JS `typeof item === 'object'` for a (truthy) JSON value: objects and
arrays qualify, primitives do not. -/
def jIsObjectType : JVal → Bool
  | .obj _ => true
  | .arr _ => true
  | _ => false

/-- JS field access `item.f` on a JSON value: `some v` when `item` is an
object with field `f` (last duplicate wins, as in `JSON.parse`), else
`none` (the JS `undefined`, which is falsy). -/
def jField (x : JVal) (f : String) : Option JVal :=
  match x with
  | .obj fields =>
    match fields.reverse.find? (fun kv => kv.1 == f) with
    | some kv => some kv.2
    | none => none
  | _ => none

/-- Truthiness of `item.f`: `undefined` is falsy. -/
def jFieldTruthy (x : JVal) (f : String) : Bool :=
  match jField x f with
  | some v => jTruthy v
  | none => false

/-- The validation predicate of `loadBreadcrumbs`:
`item && typeof item === 'object' && item.label && item.url`. -/
def validItem (item : JVal) : Bool :=
  jTruthy item && jIsObjectType item &&
    jFieldTruthy item "label" && jFieldTruthy item "url"

/-- The body of the `try` block of `loadBreadcrumbs`: parsing a malformed
string throws, and calling `.filter` on a parsed non-array value throws a
`TypeError`; both propagate as `.error`.  `prev` is the value the global
`breadcrumbs` array has when nothing is stored. -/
def loadBody (s : Stored) (prev : List JVal) : Except Unit (List JVal) :=
  match s with
  | .absent => .ok prev
  | .malformed => .error ()
  | .value j =>
    match j with
    | .arr l => .ok (l.filter validItem)
    | _ => .error ()

/-- `loadBreadcrumbs()` from the source: the `catch` clause turns any
error raised in the body into an empty trail, so the function is total
and never raises to the caller. -/
def loadBreadcrumbs (s : Stored) (prev : List JVal) : List JVal :=
  match loadBody s prev with
  | .ok t => t
  | .error _ => []

/-- The JSON object `JSON.stringify` produces for a trail entry. -/
def entryToJson (e : Entry) : JVal :=
  .obj [("label", .str e.label), ("url", .str e.url)]

/-- `saveBreadcrumbs()` from the source: store the serialized trail under
the fixed key (`JSON.stringify` of a `{label, url}` array is a truthy
string that parses back to the same JSON value). -/
def saveBreadcrumbs (trail : List Entry) : Stored :=
  .value (.arr (trail.map entryToJson))

/-! ## Renderer -/

/-- The escape map of `escapeHtml`, one character at a time. -/
def escChar (c : Char) : List Char :=
  if c = '&' then "&amp;".data
  else if c = '<' then "&lt;".data
  else if c = '>' then "&gt;".data
  else if c = '"' then "&quot;".data
  else if c = '\'' then "&#039;".data
  else [c]

/-- `escapeHtml(text)` from the source: replace every occurrence of the
five HTML-significant characters (the regex is global). -/
def escapeHtml (s : String) : String :=
  String.mk (s.data.flatMap escChar)

/-- The `innerHTML` assigned to the `<li>` of the last entry. -/
def renderLast (item : Entry) : String :=
  "<span class=\"font-medium text-gray-500\">" ++ escapeHtml item.label ++ "</span>"

/-- The `innerHTML` assigned to the `<li>` of a non-last entry (the
template literal's own newlines and indentation included). -/
def renderLink (item : Entry) : String :=
  "\n                <a href=\"" ++ escapeHtml item.url ++
    "\" class=\"text-blue-600 hover:text-blue-800 font-medium transition-colors duration-200\">" ++
    escapeHtml item.label ++
    "</a>\n                <svg class=\"flex-shrink-0 w-5 h-5 text-gray-400 mx-2\" fill=\"currentColor\" viewBox=\"0 0 20 20\" aria-hidden=\"true\">\n                    <path fill-rule=\"evenodd\" d=\"M7.293 14.707a1 1 0 010-1.414L10.586 10 7.293 6.707a1 1 0 011.414-1.414l4 4a1 1 0 010 1.414l-4 4a1 1 0 01-1.414 0z\" clip-rule=\"evenodd\"></path>\n                </svg>\n            "

/-- `renderBreadcrumbs()` from the source, as the list of `<li>` inner
HTML strings appended to the container: each entry renders as a link
with separator except the last, which renders as plain text.  An empty
trail renders nothing. -/
def renderBreadcrumbs : List Entry → List String
  | [] => []
  | [item] => [renderLast item]
  | item :: rest => renderLink item :: renderBreadcrumbs rest

/-! ## Reference semantics for the snapshot accessor

`breadcrumbManager.getCurrentPath` is `() => [...breadcrumbs]`.  The
spread copies the array object but not the entry objects it holds, so
we model a two-level heap: a heap of entry objects and a heap of array
objects (arrays hold entry addresses).  The engine owns the address of
its internal `breadcrumbs` array. -/

/-- The heap: entry objects and array objects, addressed by index. -/
structure Mem where
  entries : List Entry
  arrays : List (List Nat)
deriving Repr

/-- The engine state for the aliasing analysis: the heap plus the
address of the internal `breadcrumbs` array. -/
structure EngineState where
  mem : Mem
  trailArr : Nat
deriving Repr

/-- Read an array object from the heap. -/
def readArr (m : Mem) (a : Nat) : List Nat :=
  m.arrays.getD a []

/-- The trail the engine observes: its array's entries, dereferenced. -/
def readTrail (st : EngineState) : List Entry :=
  (readArr st.mem st.trailArr).map (fun i => st.mem.entries.getD i ⟨"", ""⟩)

/-- `getCurrentPath`: allocate a fresh array holding the same entry
addresses as the internal one (the spread `[...breadcrumbs]`), and
return its address to the caller. -/
def getCurrentPath (st : EngineState) : EngineState × Nat :=
  let fresh := st.mem.arrays.length
  ({ st with
      mem := { st.mem with
        arrays := st.mem.arrays ++ [readArr st.mem st.trailArr] } },
    fresh)

/-- A caller mutating an array object it can reach (e.g. `snap[0] = x`,
`snap.push(x)` on the returned snapshot): replace its contents. -/
def setArray (st : EngineState) (a : Nat) (v : List Nat) : EngineState :=
  { st with mem := { st.mem with arrays := st.mem.arrays.set a v } }

/-- A caller mutating an entry object it can reach through the snapshot
(e.g. `snap[0].label = x`): update the entry heap at that address. -/
def setEntry (st : EngineState) (i : Nat) (e : Entry) : EngineState :=
  { st with mem := { st.mem with entries := st.mem.entries.set i e } }

/-! ## Basic lemmas about the JS string primitives -/

theorem isPrefL_iff (p l : List Char) : isPrefL p l = true ↔ ∃ t, l = p ++ t := by
  induction p generalizing l with
  | nil => simp [isPrefL]
  | cons a as ih =>
    cases l with
    | nil =>
      simp [isPrefL]
    | cons b bs =>
      simp only [isPrefL, Bool.and_eq_true, beq_iff_eq, ih, List.cons_append,
        List.cons.injEq]
      constructor
      · rintro ⟨rfl, t, rfl⟩
        exact ⟨t, rfl, rfl⟩
      · rintro ⟨t, rfl, rfl⟩
        exact ⟨rfl, t, rfl⟩

theorem occursIn_iff (p l : List Char) : occursIn p l = true ↔ ∃ s t, l = s ++ p ++ t := by
  induction l with
  | nil =>
    simp only [occursIn, isPrefL_iff]
    constructor
    · rintro ⟨t, ht⟩
      exact ⟨[], t, ht⟩
    · rintro ⟨s, t, ht⟩
      have h0 : s = [] ∧ p = [] ∧ t = [] := by
        simpa [and_assoc] using ht.symm
      exact ⟨[], by simp [h0.2.1]⟩
  | cons c ls ih =>
    simp only [occursIn, Bool.or_eq_true, isPrefL_iff, ih]
    constructor
    · rintro (⟨t, ht⟩ | ⟨s, t, ht⟩)
      · exact ⟨[], t, by simpa using ht⟩
      · exact ⟨c :: s, t, by simp [ht]⟩
    · rintro ⟨s, t, ht⟩
      cases s with
      | nil => exact Or.inl ⟨t, by simpa using ht⟩
      | cons c' s' =>
        simp only [List.cons_append, List.cons.injEq] at ht
        exact Or.inr ⟨s', t, ht.2⟩

theorem mem_of_occursIn {p l : List Char} (h : occursIn p l = true) :
    ∀ c ∈ p, c ∈ l := by
  rcases (occursIn_iff p l).mp h with ⟨s, t, rfl⟩
  intro c hc
  simp [hc]

/-- If the pattern never occurs, a first-occurrence replacement is the
identity. -/
theorem replFirstAux_of_not_occurs {p : List Char} (r : List Char) {l : List Char}
    (h : occursIn p l = false) : replFirstAux p r l = l := by
  induction l with
  | nil => rfl
  | cons c ls ih =>
    simp only [occursIn, Bool.or_eq_false_iff] at h
    simp only [replFirstAux, h.1, Bool.false_eq_true, if_false]
    rw [ih h.2]

/-- A `normalizeUrl` result always starts with a slash. -/
theorem normalizeUrl_startsWith (origin url : String) :
    jsStartsWith (normalizeUrl origin url) "/" = true := by
  simp only [normalizeUrl]
  split
  · assumption
  · show isPrefL "/".data (("/" ++ replaceFirst url origin "").data) = true
    rw [String.data_append]
    simp [isPrefL]

/-! ## The shared concrete environments used by the concrete theorems -/

/-- An environment with empty hierarchy, no role marker and no resolver
links, on a fixed origin. -/
def env0 : Env :=
  { origin := "https://a.com", hierarchy := [], isAdminText := none,
    adminLink := none, employeeLink := none }

/-- An environment whose hierarchy holds one root-level page whose label
does not mention "dashboard" (reachable: its URL contains
`admin_dashboard`, so `initializePageHierarchy` classifies it level 0). -/
def env1 : Env :=
  { origin := "https://a.com",
    hierarchy := [("/admin_dashboard/", { label := "Home", level := 0, parent := none })],
    isAdminText := none, adminLink := none, employeeLink := none }

/-! ## C1 -/

/-- C1 (counterexample): with `currentUrl = "dashboard"` the current page
is a dashboard page, yet `buildBreadcrumbPath` does not return the entry
with the normalized URL `/dashboard`: the URL is stored verbatim. -/
theorem c1_build_dashboard_normalized_cex :
    isDashboardPage env0 "dashboard" "X" = true ∧
    normalizeUrl env0.origin "dashboard" = "/dashboard" ∧
    buildBreadcrumbPath env0 [] "X" "dashboard" ≠
      [{ label := "X", url := normalizeUrl env0.origin "dashboard" }] := by
  refine ⟨by decide, by decide, ?_⟩
  decide

/-- C1 (amended): if `isDashboardPage(currentUrl, currentLabel)` is true
then `buildBreadcrumbPath` returns a single-entry trail equal to
`{currentLabel, currentUrl}`, the URL taken verbatim (not normalized). -/
theorem c1_build_dashboard_single (env : Env) (trail : List Entry)
    (l u : String) (h : isDashboardPage env u l = true) :
    buildBreadcrumbPath env trail l u = [{ label := l, url := u }] := by
  unfold buildBreadcrumbPath
  simp [h]

/-- Witness for C1: the amended theorem applied at a concrete input. -/
theorem c1_build_dashboard_single_witness :
    isDashboardPage env0 "dashboard" "X" = true ∧
    buildBreadcrumbPath env0 [] "X" "dashboard" = [{ label := "X", url := "dashboard" }] :=
  ⟨by decide, c1_build_dashboard_single env0 [] "X" "dashboard" (by decide)⟩

/-! ## C2 -/

/-- C2: every trail `buildBreadcrumbPath` returns has length at most 2,
has no two adjacent entries with equal normalized URLs, and ends with the
current page's entry. -/
theorem c2_build_trail_invariants (env : Env) (trail : List Entry) (l u : String) :
    (buildBreadcrumbPath env trail l u).length ≤ 2 ∧
    List.Chain'
      (fun a b => normalizeUrl env.origin a.url ≠ normalizeUrl env.origin b.url)
      (buildBreadcrumbPath env trail l u) ∧
    (buildBreadcrumbPath env trail l u).getLast? =
      some { label := l, url := u } := by
  simp only [buildBreadcrumbPath]
  split
  · simp
  · split
    · next h =>
      refine ⟨by simp, ?_, by simp⟩
      simpa [List.chain'_pair] using bne_iff_ne.mp h
    · simp

/-! ## C10 -/

/-- C10: `buildBreadcrumbPath` always returns a non-empty trail whose
last element is exactly `{currentLabel, currentUrl}`, both arguments
passed through verbatim. -/
theorem c10_build_last_verbatim (env : Env) (trail : List Entry) (l u : String) :
    buildBreadcrumbPath env trail l u ≠ [] ∧
    (buildBreadcrumbPath env trail l u).getLast? =
      some { label := l, url := u } := by
  simp only [buildBreadcrumbPath]
  split
  · simp
  · split <;> simp

/-! ## C3 -/

/-- The resolution order of the spec's §4.2, amended at step (b): the
first hierarchy entry that has `level = 0` *and* whose label contains
"dashboard" (case-insensitive).  Steps: (a) a trail entry satisfying
`isDashboardPage`; (b) as amended; (c) the role-specific link from the
DOM; (d) the hard-coded lower-privilege default. -/
def resolveDashboardSpec (env : Env) (trail : List Entry) : Entry :=
  let stepA := trail.find? (fun e => isDashboardPage env e.url e.label)
  let stepB := (env.hierarchy.find?
    (fun kv => kv.2.level == 0 && jsIncludes (jsToLower kv.2.label) "dashboard")).map
    (fun kv => { label := kv.2.label, url := kv.1 })
  let stepC := (if isAdminRole env then env.adminLink else env.employeeLink).map
    (fun link => { label := link.dataLabel, url := normalizeUrl env.origin link.href })
  let stepD : Entry :=
    if isAdminRole env then { label := "Admin Dashboard", url := "/admin_dashboard/" }
    else { label := "Employee Dashboard", url := "/employee_dashboard/" }
  (((stepA).or stepB).or stepC).getD stepD

/-- C3 (counterexample): a hierarchy whose first (and only) `level = 0`
entry is labelled "Home" — reachable from `initializePageHierarchy`,
since its URL contains `admin_dashboard` — is skipped by
`getDashboardPage`, which falls through to the hard-coded default
instead of returning that first level-0 entry as the claim states. -/
theorem c3_dashboard_resolution_cex :
    initializePageHierarchy "https://a.com"
      [{ href := "https://a.com/admin_dashboard/", dataLabel := "Home" }]
      "/admin_dashboard/" "Home" = env1.hierarchy ∧
    ([] : List Entry).find? (fun e => isDashboardPage env1 e.url e.label) = none ∧
    env1.hierarchy.find? (fun kv => kv.2.level == 0) =
      some ("/admin_dashboard/", { label := "Home", level := 0, parent := none }) ∧
    getDashboardPage env1 [] =
      { label := "Employee Dashboard", url := "/employee_dashboard/" } ∧
    getDashboardPage env1 [] ≠ { label := "Home", url := "/admin_dashboard/" } := by
  refine ⟨by decide, by decide, by decide, by decide, by decide⟩

/-- C3 (amended): `getDashboardPage` realizes the layered resolution
with step (b) amended to require a "dashboard" label, and — being a
total function into `Entry` — always yields a usable entry. -/
theorem c3_dashboard_resolution_layered (env : Env) (trail : List Entry) :
    getDashboardPage env trail = resolveDashboardSpec env trail := by
  simp only [getDashboardPage, resolveDashboardSpec]
  cases htr : trail.find? (fun e => isDashboardPage env e.url e.label) with
  | some d => simp [Option.or]
  | none =>
    cases hh : env.hierarchy.find?
        (fun kv => kv.2.level == 0 && jsIncludes (jsToLower kv.2.label) "dashboard") with
    | some kv => simp [Option.or]
    | none =>
      cases hl : (if isAdminRole env then env.adminLink else env.employeeLink) with
      | some link => simp [Option.or]
      | none => simp [Option.or]

/-! ## C8 -/

/-- C8 (counterexample): an external `updateBreadcrumb("X", "foo")` call
stores the url `"foo"` verbatim even though its normalized form is
`"/foo"`: rebuilt trails are not always normalized. -/
theorem c8_urls_not_normalized_cex :
    updateBreadcrumb env0 [] "X" "foo" =
      [{ label := "Employee Dashboard", url := "/employee_dashboard/" },
        { label := "X", url := "foo" }] ∧
    normalizeUrl env0.origin "foo" ≠ "foo" := by
  refine ⟨by decide, by decide⟩

/-- Every url `getDashboardPage` can return starts with `/` provided the
trail's and the hierarchy's urls do. -/
theorem getDashboardPage_url_slash (env : Env) (trail : List Entry)
    (htrail : ∀ e ∈ trail, jsStartsWith e.url "/" = true)
    (hhier : ∀ kv ∈ env.hierarchy, jsStartsWith kv.1 "/" = true) :
    jsStartsWith (getDashboardPage env trail).url "/" = true := by
  simp only [getDashboardPage]
  cases htr : trail.find? (fun e => isDashboardPage env e.url e.label) with
  | some d => exact htrail d (List.mem_of_find?_eq_some htr)
  | none =>
    cases hh : env.hierarchy.find?
        (fun kv => kv.2.level == 0 && jsIncludes (jsToLower kv.2.label) "dashboard") with
    | some kv => exact hhier kv (List.mem_of_find?_eq_some hh)
    | none =>
      cases hl : (if isAdminRole env then env.adminLink else env.employeeLink) with
      | some link => exact normalizeUrl_startsWith env.origin link.href
      | none =>
        dsimp only
        split <;> decide

/-- C8 (amended): rebuilt trails store urls verbatim, so they are in
normalized (leading-slash) form exactly when the inputs are: if the
current url, every trail url and every hierarchy key starts with `/`,
then so does every url of the rebuilt trail. -/
theorem c8_build_preserves_normalized (env : Env) (trail : List Entry)
    (l u : String) (hu : jsStartsWith u "/" = true)
    (htrail : ∀ e ∈ trail, jsStartsWith e.url "/" = true)
    (hhier : ∀ kv ∈ env.hierarchy, jsStartsWith kv.1 "/" = true) :
    ∀ e ∈ updateBreadcrumb env trail l u, jsStartsWith e.url "/" = true := by
  intro e he
  simp only [updateBreadcrumb, buildBreadcrumbPath] at he
  split at he
  · simp only [List.mem_singleton] at he
    subst he
    exact hu
  · rcases List.mem_append.mp he with h | h
    · split at h
      · simp only [List.mem_singleton] at h
        subst h
        exact getDashboardPage_url_slash env trail htrail hhier
      · simp at h
    · simp only [List.mem_singleton] at h
      subst h
      exact hu

/-- Witness for C8: the amended theorem applied at a concrete input. -/
theorem c8_build_preserves_normalized_witness :
    jsStartsWith "/profile/" "/" = true ∧
    (updateBreadcrumb env0 [] "Profile" "/profile/").all
      (fun e => jsStartsWith e.url "/") = true := by
  refine ⟨by decide, ?_⟩
  have h := c8_build_preserves_normalized env0 [] "Profile" "/profile/"
    (by decide) (by decide) (by decide)
  exact List.all_eq_true.mpr (fun e he => h e he)

/-! ## C7 -/

/-- C7 (counterexample): `normalizeUrl` removes only the *first*
occurrence of the origin, so an output that still contains the origin is
not a fixed point.  The first conjunct shows the chosen `u` is itself a
normalizer output (the claim's "output form"); the second shows
`normalize (normalize u) ≠ normalize u`. -/
theorem c7_normalize_not_idempotent_cex :
    normalizeUrl "https://a.com" "https://a.comhttps://a.comhttps://a.com/x" =
      "/https://a.comhttps://a.com/x" ∧
    normalizeUrl "https://a.com"
        (normalizeUrl "https://a.com" "/https://a.comhttps://a.com/x") ≠
      normalizeUrl "https://a.com" "/https://a.comhttps://a.com/x" := by
  refine ⟨by decide, by decide⟩

/-- C7 (amended): on every url in the normalizer's output form (leading
slash) that contains no occurrence of the origin, `normalizeUrl` is the
identity, and hence idempotent there. -/
theorem c7_normalize_idempotent (origin u : String)
    (hfree : occursIn origin.data u.data = false)
    (hslash : jsStartsWith u "/" = true) :
    normalizeUrl origin (normalizeUrl origin u) = normalizeUrl origin u ∧
    normalizeUrl origin u = u := by
  have horigin : origin.data ≠ [] := by
    intro h0
    rw [h0] at hfree
    cases u with
    | mk data => cases data <;> simp [occursIn, isPrefL] at hfree
  have hfix : normalizeUrl origin u = u := by
    have hrepl : replaceFirst u origin "" = u := by
      simp only [replaceFirst, horigin, if_false]
      rw [replFirstAux_of_not_occurs [] hfree]
    simp only [normalizeUrl, hrepl, hslash, if_true]
  exact ⟨by rw [hfix, hfix], hfix⟩

/-- Witness for C7: the amended theorem applied at a concrete input. -/
theorem c7_normalize_idempotent_witness :
    occursIn "https://a.com".data "/profile/".data = false ∧
    normalizeUrl "https://a.com" (normalizeUrl "https://a.com" "/profile/") =
      normalizeUrl "https://a.com" "/profile/" :=
  ⟨by decide,
    (c7_normalize_idempotent "https://a.com" "/profile/" (by decide) (by decide)).1⟩

/-! ## C4 -/

/-- C4 (counterexample): when the storage slot is absent, the `if
(stored)` guard skips the whole body, so `loadBreadcrumbs` leaves the
previous in-memory trail untouched instead of yielding an empty trail —
observable through `breadcrumbManager.load()` once the slot is gone
(e.g. after the sidebar logout handler's `localStorage.clear()`) while
a trail is still in memory. -/
theorem c4_load_absent_keeps_prev_cex :
    loadBreadcrumbs .absent
        [JVal.obj [("label", JVal.str "A"), ("url", JVal.str "/a")]] =
      [JVal.obj [("label", JVal.str "A"), ("url", JVal.str "/a")]] ∧
    ([JVal.obj [("label", JVal.str "A"), ("url", JVal.str "/a")]] :
        List JVal) ≠ [] :=
  ⟨rfl, by simp⟩

/-- C4 (amended): `loadBreadcrumbs` fails soft, never raising to the
caller.  Any error raised inside the body is caught and yields an empty
trail; a malformed store yields an empty trail; an absent store leaves
the in-memory trail unchanged (an empty trail exactly when the trail was
already empty, as on a fresh page load); a parsed non-array yields an
empty trail (its `.filter` call throws, and the `catch` resets the
trail); a parsed array is filtered elementwise: elements lacking a
non-empty `label` or a non-empty `url` are dropped silently, and
well-formed elements (objects carrying non-empty string `label` and
`url`) are preserved. -/
theorem c4_load_fails_soft :
    (∀ s prev, loadBody s prev = .error () → loadBreadcrumbs s prev = []) ∧
    (∀ prev, loadBreadcrumbs .malformed prev = []) ∧
    (∀ prev, loadBreadcrumbs .absent prev = prev) ∧
    (∀ prev j, (∀ l, j ≠ .arr l) → loadBreadcrumbs (.value j) prev = []) ∧
    (∀ prev l, loadBreadcrumbs (.value (.arr l)) prev = l.filter validItem) ∧
    (∀ prev l x, x ∈ l →
      (jField x "label" = none ∨ jField x "label" = some (.str "") ∨
        jField x "url" = none ∨ jField x "url" = some (.str "")) →
      x ∉ loadBreadcrumbs (.value (.arr l)) prev) ∧
    (∀ prev l x, x ∈ l → jIsObjectType x = true →
      (∃ s, jField x "label" = some (.str s) ∧ s ≠ "") →
      (∃ s, jField x "url" = some (.str s) ∧ s ≠ "") →
      x ∈ loadBreadcrumbs (.value (.arr l)) prev) := by
  refine ⟨?_, fun _ => rfl, fun _ => rfl, ?_, fun _ _ => rfl, ?_, ?_⟩
  · intro s prev h
    simp [loadBreadcrumbs, h]
  · intro prev j hj
    cases j with
    | arr l => exact absurd rfl (hj l)
    | null => rfl
    | bool b => rfl
    | num n => rfl
    | str s => rfl
    | obj fields => rfl
  · intro prev l x hx hbad hmem
    have hvalid : validItem x = true :=
      (List.mem_filter.mp hmem).2
    simp only [validItem, Bool.and_eq_true] at hvalid
    have hlab : jFieldTruthy x "label" = true := hvalid.1.2
    have hurl : jFieldTruthy x "url" = true := hvalid.2
    rcases hbad with h | h | h | h <;>
      simp [jFieldTruthy, h, jTruthy] at hlab hurl
  · intro prev l x hx hobj ⟨ls, hls, hlne⟩ ⟨us, hus, hune⟩
    refine List.mem_filter.mpr ⟨hx, ?_⟩
    have htr : jTruthy x = true := by
      cases x <;> simp_all [jIsObjectType, jTruthy]
    simp only [validItem, Bool.and_eq_true]
    refine ⟨⟨⟨htr, hobj⟩, ?_⟩, ?_⟩
    · simp [jFieldTruthy, hls, jTruthy, bne_iff_ne, hlne]
    · simp [jFieldTruthy, hus, jTruthy, bne_iff_ne, hune]

/-- Witness for C4: the spec's own example — a store holding
`[{label:"A"}]` loads as the empty trail, not a crash. -/
theorem c4_load_fails_soft_witness :
    (JVal.obj [("label", JVal.str "A")]) ∉
      loadBreadcrumbs (.value (.arr [JVal.obj [("label", JVal.str "A")]])) [] ∧
    loadBreadcrumbs (.value (.arr [JVal.obj [("label", JVal.str "A")]])) [] = [] :=
  ⟨c4_load_fails_soft.2.2.2.2.2.1 [] [JVal.obj [("label", JVal.str "A")]]
      (JVal.obj [("label", JVal.str "A")])
      (List.mem_singleton.mpr rfl)
      (Or.inr (Or.inr (Or.inl rfl))),
    (c4_load_fails_soft.2.2.2.2.1 [] [JVal.obj [("label", JVal.str "A")]]).trans rfl⟩

/-! ## C5 -/

/-- C5: saving a well-formed trail of up to two entries and loading it
back yields the same trail (at the JSON level, `entryToJson` being
injective — last conjunct — this is equality with `t`). -/
theorem c5_save_load_round_trip (t : List Entry)
    (hwf : ∀ e ∈ t, e.label ≠ "" ∧ e.url ≠ "") (_hlen : t.length ≤ 2) :
    loadBreadcrumbs (saveBreadcrumbs t) [] = t.map entryToJson ∧
    (∀ e₁ e₂ : Entry, entryToJson e₁ = entryToJson e₂ → e₁ = e₂) := by
  constructor
  · have hall : ∀ x ∈ t.map entryToJson, validItem x = true := by
      intro x hx
      rcases List.mem_map.mp hx with ⟨e, he, rfl⟩
      have h1 : validItem (entryToJson e) =
          ((e.label != "") && (e.url != "")) := rfl
      rw [h1]
      simp [bne_iff_ne, (hwf e he).1, (hwf e he).2]
    calc loadBreadcrumbs (saveBreadcrumbs t) []
        = (t.map entryToJson).filter validItem := rfl
      _ = t.map entryToJson := List.filter_eq_self.mpr hall
  · intro e₁ e₂ h
    simp only [entryToJson, JVal.obj.injEq, List.cons.injEq, Prod.mk.injEq,
      JVal.str.injEq, and_true, true_and] at h
    cases e₁
    cases e₂
    simp_all

/-- Witness for C5: the round trip at a concrete two-entry trail. -/
theorem c5_save_load_round_trip_witness :
    loadBreadcrumbs
        (saveBreadcrumbs
          [{ label := "Admin Dashboard", url := "/admin_dashboard/" },
            { label := "Edit Employee", url := "/employees/5/edit/" }]) [] =
      ([{ label := "Admin Dashboard", url := "/admin_dashboard/" },
        { label := "Edit Employee", url := "/employees/5/edit/" }] :
          List Entry).map entryToJson :=
  (c5_save_load_round_trip
    [{ label := "Admin Dashboard", url := "/admin_dashboard/" },
      { label := "Edit Employee", url := "/employees/5/edit/" }]
    (by decide) (by decide)).1

/-! ## C9 -/

/-- The concrete engine state used for the snapshot aliasing theorems:
one entry object at address 0 and the internal trail array `[0]` at
array address 0. -/
def st0 : EngineState :=
  { mem := { entries := [{ label := "A", url := "/a" }], arrays := [[0]] },
    trailArr := 0 }

/-- C9 (counterexample): the snapshot is a *shallow* copy — it holds the
same entry object addresses — so mutating an entry reached through the
returned snapshot (here address 0, the snapshot's sole element) changes
the engine's internal trail. -/
theorem c9_snapshot_not_defensive_cex :
    readTrail st0 = [{ label := "A", url := "/a" }] ∧
    readArr (getCurrentPath st0).1.mem (getCurrentPath st0).2 = [0] ∧
    readTrail (setEntry (getCurrentPath st0).1 0 { label := "B", url := "/a" }) =
      [{ label := "B", url := "/a" }] ∧
    ([{ label := "B", url := "/a" }] : List Entry) ≠
      [{ label := "A", url := "/a" }] := by
  refine ⟨by decide, by decide, by decide, by decide⟩

/-- C9 (amended): `getCurrentPath` returns a fresh array object, so
mutating the returned *array* leaves the engine's trail unchanged; but
the fresh array holds the very same entry addresses as the internal one
(second conjunct), so entry objects are shared, not copied. -/
theorem c9_snapshot_shallow_copy (st : EngineState) (v : List Nat)
    (hvalid : st.trailArr < st.mem.arrays.length) :
    readTrail (setArray (getCurrentPath st).1 (getCurrentPath st).2 v) =
      readTrail st ∧
    readArr (getCurrentPath st).1.mem (getCurrentPath st).2 =
      readArr st.mem st.trailArr := by
  have hne : st.mem.arrays.length ≠ st.trailArr := (Nat.ne_of_lt hvalid).symm
  constructor
  · simp only [readTrail, getCurrentPath, setArray, readArr,
      List.getD_eq_getElem?_getD, List.getElem?_set_ne hne,
      List.getElem?_append_left hvalid]
  · simp only [getCurrentPath, readArr, List.getD_eq_getElem?_getD,
      List.getElem?_concat_length, Option.getD_some]

/-- Witness for C9: the amended theorem applied at the concrete state. -/
theorem c9_snapshot_shallow_copy_witness :
    st0.trailArr < st0.mem.arrays.length ∧
    readTrail (setArray (getCurrentPath st0).1 (getCurrentPath st0).2 [])
      = readTrail st0 :=
  ⟨by decide, (c9_snapshot_shallow_copy st0 [] (by decide)).1⟩

/-! ## C6: lemmas about escaping and the rendered markup -/

theorem escChar_no_danger (c d : Char) (hd : d ∈ escChar c) :
    d ≠ '<' ∧ d ≠ '>' ∧ d ≠ '"' ∧ d ≠ '\'' := by
  unfold escChar at hd
  repeat' split at hd
  all_goals
    first
    | (revert d; decide)
    | (simp only [List.mem_singleton] at hd; subst hd; simp_all)

theorem lt_not_mem_esc (s : String) : '<' ∉ (escapeHtml s).data := by
  intro h
  have h' : '<' ∈ s.data.flatMap escChar := h
  rcases List.mem_flatMap.mp h' with ⟨c, -, hc⟩
  exact (escChar_no_danger c '<' hc).1 rfl

theorem esc_no_script (s : String) :
    occursIn "<script".data (escapeHtml s).data = false := by
  rw [Bool.eq_false_iff]
  intro h
  exact lt_not_mem_esc s (mem_of_occursIn h '<' (by decide))

theorem script_take_head (k : Nat) (hk : 0 < k) :
    '<' ∈ "<script".data.take k := by
  cases k with
  | zero => omega
  | succ n =>
    show '<' ∈ ('<' :: "script".data).take (n + 1)
    rw [List.take_succ_cons]
    exact List.mem_cons_self _ _

/-- Decomposing an occurrence in an appended list: the pattern occurs
wholly in the left part, wholly in the right part, or straddles the
boundary. -/
theorem occursIn_append_split {p a b : List Char}
    (h : occursIn p (a ++ b) = true) :
    occursIn p a = true ∨ occursIn p b = true ∨
      ∃ k, 0 < k ∧ k < p.length ∧ (p.take k) <:+ a ∧ (p.drop k) <+: b := by
  rcases (occursIn_iff _ _).mp h with ⟨s, t, heq⟩
  by_cases h1 : s.length + p.length ≤ a.length
  · left
    apply (occursIn_iff p a).mpr
    have ha : a = ((s ++ p) ++ t).take a.length := by
      rw [← heq]
      exact (List.take_left a b).symm
    rw [List.take_append_eq_append_take, List.take_append_eq_append_take,
      List.take_of_length_le (by omega : s.length ≤ a.length),
      List.take_of_length_le (by omega : p.length ≤ a.length - s.length)]
      at ha
    exact ⟨s, _, ha⟩
  · by_cases h2 : a.length ≤ s.length
    · right; left
      apply (occursIn_iff p b).mpr
      have hb : b = ((s ++ p) ++ t).drop a.length := by
        rw [← heq]
        exact (List.drop_left a b).symm
      rw [List.drop_append_eq_append_drop, List.drop_append_eq_append_drop,
        (by omega : a.length - s.length = 0), List.drop_zero,
        (by simp [List.length_append]; omega : a.length - (s ++ p).length = 0),
        List.drop_zero] at hb
      exact ⟨s.drop a.length, t, hb⟩
    · right; right
      refine ⟨a.length - s.length, by omega, by omega, ?_, ?_⟩
      · have ha : a = ((s ++ p) ++ t).take a.length := by
          rw [← heq]
          exact (List.take_left a b).symm
        rw [List.take_append_eq_append_take, List.take_append_eq_append_take,
          List.take_of_length_le (by omega : s.length ≤ a.length),
          (by simp [List.length_append]; omega : a.length - (s ++ p).length = 0),
          List.take_zero, List.append_nil] at ha
        exact ⟨s, ha.symm⟩
      · have hb : b = ((s ++ p) ++ t).drop a.length := by
          rw [← heq]
          exact (List.drop_left a b).symm
        rw [List.drop_append_eq_append_drop, List.drop_append_eq_append_drop,
          List.drop_eq_nil_of_le (by omega : s.length ≤ a.length),
          (by simp [List.length_append]; omega : a.length - (s ++ p).length = 0),
          List.drop_zero, List.nil_append] at hb
        exact ⟨t, hb.symm⟩

/-- If a `"<script"` occurrence is impossible in both parts and across
the boundary, it is impossible in the appended list. -/
theorem no_script_append {a b : List Char}
    (ha : occursIn "<script".data a = false)
    (hb : occursIn "<script".data b = false)
    (hcross : ∀ k, 0 < k → k < 7 →
      ¬ (("<script".data.take k) <:+ a ∧ ("<script".data.drop k) <+: b)) :
    occursIn "<script".data (a ++ b) = false := by
  rw [Bool.eq_false_iff]
  intro h
  rcases occursIn_append_split h with h1 | h1 | ⟨k, hk1, hk2, hk3, hk4⟩
  · rw [h1] at ha; cases ha
  · rw [h1] at hb; cases hb
  · exact hcross k hk1 (by simpa using hk2) ⟨hk3, hk4⟩

theorem occursIn_append_r {p b : List Char} (a : List Char)
    (h : occursIn p b = true) : occursIn p (a ++ b) = true := by
  rcases (occursIn_iff _ _).mp h with ⟨s, t, rfl⟩
  exact (occursIn_iff _ _).mpr ⟨a ++ s, t, by simp [List.append_assoc]⟩

theorem occursIn_append_l {p a : List Char} (b : List Char)
    (h : occursIn p a = true) : occursIn p (a ++ b) = true := by
  rcases (occursIn_iff _ _).mp h with ⟨s, t, rfl⟩
  exact (occursIn_iff _ _).mpr ⟨s, t ++ b, by simp [List.append_assoc]⟩

/-- Character-wise escaping preserves substring occurrences. -/
theorem esc_preserves_occurs {lab pat : String}
    (h : jsIncludes lab pat = true) :
    occursIn (escapeHtml pat).data (escapeHtml lab).data = true := by
  rcases (occursIn_iff _ _).mp h with ⟨s, t, heq⟩
  apply (occursIn_iff _ _).mpr
  refine ⟨s.flatMap escChar, t.flatMap escChar, ?_⟩
  show lab.data.flatMap escChar =
    s.flatMap escChar ++ pat.data.flatMap escChar ++ t.flatMap escChar
  rw [heq]
  simp [List.flatMap_append]

/-- The rendered non-last `<li>` decomposed into template fragments and
escaped payloads. -/
theorem renderLink_data (e : Entry) :
    (renderLink e).data =
      "\n                <a href=\"".data ++
        ((escapeHtml e.url).data ++
          ("\" class=\"text-blue-600 hover:text-blue-800 font-medium transition-colors duration-200\">".data ++
            ((escapeHtml e.label).data ++
              "</a>\n                <svg class=\"flex-shrink-0 w-5 h-5 text-gray-400 mx-2\" fill=\"currentColor\" viewBox=\"0 0 20 20\" aria-hidden=\"true\">\n                    <path fill-rule=\"evenodd\" d=\"M7.293 14.707a1 1 0 010-1.414L10.586 10 7.293 6.707a1 1 0 011.414-1.414l4 4a1 1 0 010 1.414l-4 4a1 1 0 01-1.414 0z\" clip-rule=\"evenodd\"></path>\n                </svg>\n            ".data))) := by
  simp [renderLink, String.data_append, List.append_assoc]

/-- The rendered last `<li>` decomposed likewise. -/
theorem renderLast_data (e : Entry) :
    (renderLast e).data =
      "<span class=\"font-medium text-gray-500\">".data ++
        ((escapeHtml e.label).data ++ "</span>".data) := by
  simp [renderLast, String.data_append, List.append_assoc]

/-- Crossing case against an escaped payload on the right is impossible:
any non-trivial head of `"<script"` contains `<`. -/
theorem no_cross_into_esc (s : String) (k : Nat) (hk : 0 < k) :
    ¬ ("<script".data.take k <:+ (escapeHtml s).data) := by
  intro hsuf
  exact lt_not_mem_esc s (hsuf.subset (script_take_head k hk))

theorem renderLast_no_script (e : Entry) :
    occursIn "<script".data (renderLast e).data = false := by
  rw [renderLast_data]
  apply no_script_append
  · decide
  · apply no_script_append
    · exact esc_no_script e.label
    · decide
    · intro k hk1 _ hc
      exact no_cross_into_esc e.label k hk1 hc.1
  · intro k hk1 hk2 hc
    have h := hc.1
    interval_cases k <;> revert h <;> decide

theorem renderLink_no_script (e : Entry) :
    occursIn "<script".data (renderLink e).data = false := by
  rw [renderLink_data]
  apply no_script_append
  · decide
  · apply no_script_append
    · exact esc_no_script e.url
    · apply no_script_append
      · decide
      · apply no_script_append
        · exact esc_no_script e.label
        · decide
        · intro k hk1 _ hc
          exact no_cross_into_esc e.label k hk1 hc.1
      · intro k hk1 hk2 hc
        have h := hc.1
        interval_cases k <;> revert h <;> decide
    · intro k hk1 _ hc
      exact no_cross_into_esc e.url k hk1 hc.1
  · intro k hk1 hk2 hc
    have h := hc.1
    interval_cases k <;> revert h <;> decide

/-- Every rendered `<li>` is the rendering of some entry of the trail. -/
theorem mem_renderBreadcrumbs {bs : List Entry} {li : String}
    (h : li ∈ renderBreadcrumbs bs) :
    ∃ e ∈ bs, li = renderLast e ∨ li = renderLink e := by
  induction bs with
  | nil => cases h
  | cons e rest ih =>
    cases rest with
    | nil =>
      simp only [renderBreadcrumbs, List.mem_singleton] at h
      exact ⟨e, List.mem_singleton.mpr rfl, Or.inl h⟩
    | cons r rs =>
      rcases List.mem_cons.mp h with h1 | h1
      · exact ⟨e, List.mem_cons_self e _, Or.inr h1⟩
      · rcases ih h1 with ⟨e', he', hor⟩
        exact ⟨e', List.mem_cons_of_mem e he', hor⟩

/-- Every entry of the trail has its rendering among the rendered
`<li>`s. -/
theorem renderBreadcrumbs_covers {bs : List Entry} {e : Entry} (h : e ∈ bs) :
    renderLast e ∈ renderBreadcrumbs bs ∨ renderLink e ∈ renderBreadcrumbs bs := by
  induction bs with
  | nil => cases h
  | cons e₀ rest ih =>
    cases rest with
    | nil =>
      simp only [List.mem_singleton] at h
      subst h
      exact Or.inl (List.mem_singleton.mpr rfl)
    | cons r rs =>
      rcases List.mem_cons.mp h with h1 | h1
      · subst h1
        exact Or.inr (List.mem_cons_self _ _)
      · rcases ih h1 with h2 | h2
        · exact Or.inl (List.mem_cons_of_mem _ h2)
        · exact Or.inr (List.mem_cons_of_mem _ h2)

theorem renderLast_contains (e : Entry)
    (h : jsIncludes e.label "<script>" = true) :
    jsIncludes (renderLast e) "&lt;script&gt;" = true := by
  show occursIn "&lt;script&gt;".data (renderLast e).data = true
  rw [renderLast_data,
    show "&lt;script&gt;".data = (escapeHtml "<script>").data from rfl]
  exact occursIn_append_r _ (occursIn_append_l _ (esc_preserves_occurs h))

theorem renderLink_contains (e : Entry)
    (h : jsIncludes e.label "<script>" = true) :
    jsIncludes (renderLink e) "&lt;script&gt;" = true := by
  show occursIn "&lt;script&gt;".data (renderLink e).data = true
  rw [renderLink_data,
    show "&lt;script&gt;".data = (escapeHtml "<script>").data from rfl]
  exact occursIn_append_r _ (occursIn_append_r _ (occursIn_append_r _
    (occursIn_append_l _ (esc_preserves_occurs h))))

/-- C6: rendering escapes labels and urls against the five
HTML-significant characters before insertion: (1) escaped text contains
none of `< > " '` (and conjunct 2 shows each of the five characters,
`&` included, maps to its entity); (3) no rendered `<li>` contains the
substring `"<script"`, whatever the entries hold — no executable markup
arises from entry data; (4) if some entry's label contains `<script>`,
the rendered trail contains `&lt;script&gt;`. -/
theorem c6_render_escapes :
    (∀ s : String, ∀ c ∈ (escapeHtml s).data,
      c ≠ '<' ∧ c ≠ '>' ∧ c ≠ '"' ∧ c ≠ '\'') ∧
    escapeHtml "&<>\"'" = "&amp;&lt;&gt;&quot;&#039;" ∧
    (∀ bs : List Entry, ∀ li ∈ renderBreadcrumbs bs,
      occursIn "<script".data li.data = false) ∧
    (∀ bs : List Entry, ∀ e ∈ bs, jsIncludes e.label "<script>" = true →
      ∃ li ∈ renderBreadcrumbs bs, jsIncludes li "&lt;script&gt;" = true) := by
  refine ⟨?_, by decide, ?_, ?_⟩
  · intro s c hc
    rcases List.mem_flatMap.mp (show c ∈ s.data.flatMap escChar from hc) with
      ⟨d, -, hd⟩
    exact escChar_no_danger d c hd
  · intro bs li hli
    rcases mem_renderBreadcrumbs hli with ⟨e, -, rfl | rfl⟩
    · exact renderLast_no_script e
    · exact renderLink_no_script e
  · intro bs e he hlab
    rcases renderBreadcrumbs_covers he with h | h
    · exact ⟨renderLast e, h, renderLast_contains e hlab⟩
    · exact ⟨renderLink e, h, renderLink_contains e hlab⟩

/-- Witness for C6: a one-entry trail whose label is `<script>` renders
with the escaped text and without any `"<script"` substring. -/
theorem c6_render_escapes_witness :
    jsIncludes (Entry.label { label := "<script>", url := "/x" }) "<script>" = true ∧
    (∃ li ∈ renderBreadcrumbs [{ label := "<script>", url := "/x" }],
      jsIncludes li "&lt;script&gt;" = true) ∧
    occursIn "<script".data (renderLast { label := "<script>", url := "/x" }).data
      = false :=
  ⟨by decide,
    c6_render_escapes.2.2.2 [{ label := "<script>", url := "/x" }]
      { label := "<script>", url := "/x" } (List.mem_singleton.mpr rfl)
      (by decide),
    c6_render_escapes.2.2.1 [{ label := "<script>", url := "/x" }]
      (renderLast { label := "<script>", url := "/x" })
      (List.mem_singleton.mpr rfl)⟩

end Breadcrumb
